import Mathlib

/-!
Verification of the in-memory "Trip Store" CRUD service (src/app/main.py).

Modelling conventions (shallow embedding):
* Python `float` fields (`price`, `rating`) are modelled as `ℚ` (`Rat`): every
  operation the service performs on them (comparison, min, max, sum, division,
  rounding) is order- and arithmetic-exact at the values the claims exercise.
* Timestamps (`created_at`, `updated_at`, produced by `get_current_time`) are
  modelled as `Nat` clock ticks; `datetime.now().isoformat()` strings are
  monotone in real time, which is all the code relies on.  Each handler that
  calls `get_current_time()` receives the tick `now` as an explicit argument.
* `uuid.uuid4()` is modelled as an explicit `String` argument to the handler;
  freshness of generated ids is a hypothesis where a claim needs it.
* The Pydantic model fields `id`, `created_at`, `updated_at` are
  `Optional[...] = None` in the source, but every stored record has them set
  and every mutation path overwrites them, so they are modelled as plain
  fields (the `None` state is unobservable in any stored record).
* The mutable global `trips_db` list becomes an explicit `List Trip` argument
  threaded through the handlers; a handler that can mutate it returns the new
  list alongside its HTTP response.
-/

/-- Model of the `Trip` Pydantic class (src/app/main.py lines 8-19).  The
`Optional` service fields `id`, `created_at`, `updated_at` are plain here:
every stored record has them set and every mutation path overwrites them, so
the `None` state is unobservable in the store. -/
structure Trip where
  id : String
  destination : String
  country : String
  travel_agency : String
  duration_days : Int
  price : Rat
  rating : Rat
  group_size : Int
  created_at : Nat
  updated_at : Nat
deriving Repr, DecidableEq

/-- Default record used only for `List.getD`, mirroring an index access the
code performs only at indices `find_trip_index` returned. -/
instance : Inhabited Trip :=
  ⟨⟨"", "", "", "", 0, 0, 0, 0, 0, 0⟩⟩

/-- Dynamic Python value as it appears in a `trip.dict()` dictionary or in a
PATCH request body: a string, an int, a float (as `ℚ`), or a timestamp. -/
inductive Value where
  | s (v : String)
  | i (v : Int)
  | q (v : Rat)
  | t (v : Nat)
deriving Repr, DecidableEq

/-- Model of `getattr(trip, f)` for field names: `some` of the field value
when `f` names a `Trip` field, `none` (an `AttributeError`) otherwise.
Non-field attributes of the Pydantic model are handled separately by
`pydantic_attrs` in `get_all_trips`. -/
def getField (t : Trip) : String → Option Value
  | "id" => some (.s t.id)
  | "destination" => some (.s t.destination)
  | "country" => some (.s t.country)
  | "travel_agency" => some (.s t.travel_agency)
  | "duration_days" => some (.i t.duration_days)
  | "price" => some (.q t.price)
  | "rating" => some (.q t.rating)
  | "group_size" => some (.i t.group_size)
  | "created_at" => some (.t t.created_at)
  | "updated_at" => some (.t t.updated_at)
  | _ => none

/-- Whether `f` names a field of the `Trip` model. -/
def isTripField (f : String) : Bool :=
  (getField default f).isSome

/-- Outcomes a handler can signal besides success:
* `notFound` — the `HTTPException(404)` raised when no record has the id;
* `unprocessable` — FastAPI's 422 request-validation rejection of a
  `create`/`replace` body (raised by the framework before the handler runs);
* `internal` — an exception escaping a handler, surfacing as a 500 response
  (the Pydantic `ValidationError` from `Trip(**trip_dict)` in `patch_trip`,
  or the `TypeError` from comparing non-orderable sort keys in
  `get_all_trips`). -/
inductive Err where
  | notFound (tid : String)
  | unprocessable
  | internal
deriving Repr, DecidableEq

/-- Model of `find_trip_by_id` (src lines 114-119): first record whose id
matches. -/
def find_trip_by_id (db : List Trip) (trip_id : String) : Option Trip :=
  db.find? (fun t => t.id == trip_id)

/-- Model of `find_trip_index` (src lines 121-126): index of the first
record whose id matches.  The Python `-1` sentinel for absence is modelled
as `none`. -/
def find_trip_index (db : List Trip) (trip_id : String) : Option Nat :=
  db.findIdx? (fun t => t.id == trip_id)

/-- Model of `trip.dict()`: the record as a Python dictionary (an
association list with these ten fixed keys, in declaration order). -/
def Trip.toDict (t : Trip) : List (String × Value) :=
  [("id", .s t.id), ("destination", .s t.destination), ("country", .s t.country),
   ("travel_agency", .s t.travel_agency), ("duration_days", .i t.duration_days),
   ("price", .q t.price), ("rating", .q t.rating), ("group_size", .i t.group_size),
   ("created_at", .t t.created_at), ("updated_at", .t t.updated_at)]

/-- Dictionary lookup `d[k]` / `d.get(k)`. -/
def dget (d : List (String × Value)) (k : String) : Option Value :=
  (d.find? (fun p => p.1 == k)).map (fun p => p.2)

/-- Python `k in d`. -/
def hasKey (d : List (String × Value)) (k : String) : Bool :=
  d.any (fun p => p.1 == k)

/-- Dictionary assignment `d[k] = v` for a key already present (the only way
`patch_trip` uses it: it guards with `key in trip_dict` first, and
`updated_at` is always present). -/
def setVal (d : List (String × Value)) (k : String) (v : Value) :
    List (String × Value) :=
  d.map (fun p => if p.1 == k then (p.1, v) else p)

/-- Update loop of `patch_trip` (src lines 288-290):
`for key, value in trip_update.items(): if key in trip_dict and key not in
['id', 'created_at']: trip_dict[key] = value`. -/
def applyUpdates (d : List (String × Value)) (m : List (String × Value)) :
    List (String × Value) :=
  m.foldl
    (fun acc kv =>
      if hasKey acc kv.1 && kv.1 != "id" && kv.1 != "created_at" then
        setVal acc kv.1 kv.2
      else acc)
    d

/-- Pydantic v1 coercion to `str`: strings pass through; numbers are coerced
via `str()` (Pydantic v1's lenient `str` validator). -/
def coerceStr : Value → Option String
  | .s v => some v
  | .i v => some (toString v)
  | .q v => some (toString v)
  | .t v => some (toString v)

/-- Pydantic v1 coercion to `int`.  Integral floats pass; non-integral
floats (which Pydantic v1 truncates) and numeric strings are edge cases no
claim exercises, so the model keeps the exact cases: an `int` passes, a
float passes when integral, a string passes when it parses as an integer
literal. -/
def coerceInt : Value → Option Int
  | .i v => some v
  | .q v => if v.den = 1 then some v.num else none
  | .s v => v.toInt?
  | .t v => some v

/-- Pydantic v1 coercion to `float`.  Numbers pass through; strings fail
(Python would accept a numeric string, but the claims exercise only strings
such as "abc" on which `float()` raises in Python exactly as here). -/
def coerceRat : Value → Option Rat
  | .q v => some v
  | .i v => some (v : Rat)
  | .t v => some (v : Rat)
  | .s _ => none

/-- Coercion for the timestamp fields (modelled as clock ticks): only a
server-produced timestamp value passes.  In every validation the code
performs, `created_at`/`updated_at` hold server-set timestamps
(`patch_trip` overwrites `updated_at` with the current time before
validating and refuses to touch `created_at`). -/
def coerceTime : Value → Option Nat
  | .t v => some v
  | _ => none

/-- Model of `Trip(**d)`: Pydantic re-validation of a ten-key dictionary
against the `Trip` model; `none` is a `ValidationError`. -/
def validateTrip (d : List (String × Value)) : Option Trip := do
  let i ← dget d "id" >>= coerceStr
  let dest ← dget d "destination" >>= coerceStr
  let co ← dget d "country" >>= coerceStr
  let ag ← dget d "travel_agency" >>= coerceStr
  let du ← dget d "duration_days" >>= coerceInt
  let pr ← dget d "price" >>= coerceRat
  let ra ← dget d "rating" >>= coerceRat
  let gs ← dget d "group_size" >>= coerceInt
  let ca ← dget d "created_at" >>= coerceTime
  let ua ← dget d "updated_at" >>= coerceTime
  pure ⟨i, dest, co, ag, du, pr, ra, gs, ca, ua⟩

/-- Dictionary `patch_trip` validates: the current record's dict, with the
update loop applied, then `trip_dict['updated_at'] = get_current_time()`. -/
def mergedDict (current : Trip) (m : List (String × Value)) (now : Nat) :
    List (String × Value) :=
  setVal (applyUpdates current.toDict m) "updated_at" (.t now)

/-- Model of `get_trip` (src lines 198-209): fetch one record or 404. -/
def get_trip (db : List Trip) (trip_id : String) : Except Err Trip :=
  match find_trip_by_id db trip_id with
  | none => .error (.notFound trip_id)
  | some t => .ok t

/-- Model of `create_trip` (src lines 212-234): overwrite the service fields
of the parsed body with a fresh id and the current time, append, return the
record.  `gid` is the `uuid.uuid4()` value, `now` the `get_current_time()`
tick. -/
def create_trip (db : List Trip) (trip : Trip) (gid : String) (now : Nat) :
    Trip × List Trip :=
  let t := { trip with id := gid, created_at := now, updated_at := now }
  (t, db ++ [t])

/-- POST /trips as seen by the caller: FastAPI parses the body against the
`Trip` model first; a body that does not validate (`none`) is rejected with
422 before `create_trip` runs, leaving the store untouched. -/
def create_trip_route (db : List Trip) (body : Option Trip) (gid : String)
    (now : Nat) : Except Err Trip × List Trip :=
  match body with
  | none => (.error .unprocessable, db)
  | some trip =>
      let r := create_trip db trip gid now
      (.ok r.1, r.2)

/-- Model of `update_trip` (src lines 237-264), the PUT handler: full
replace in place, keeping the original `created_at`, forcing `id` to the
path id and `updated_at` to the current time. -/
def update_trip (db : List Trip) (trip_id : String) (updated_trip : Trip)
    (now : Nat) : Except Err Trip × List Trip :=
  match find_trip_index db trip_id with
  | none => (.error (.notFound trip_id), db)
  | some i =>
      let original_trip := db.getD i default
      let t := { updated_trip with
                   id := trip_id
                   created_at := original_trip.created_at
                   updated_at := now }
      (.ok t, db.set i t)

/-- Model of `patch_trip` (src lines 267-299), the PATCH handler: merge the
request mapping into the current record's dict, refresh `updated_at`,
re-validate via `Trip(**trip_dict)`, and only then write back. -/
def patch_trip (db : List Trip) (trip_id : String)
    (trip_update : List (String × Value)) (now : Nat) :
    Except Err Trip × List Trip :=
  match find_trip_index db trip_id with
  | none => (.error (.notFound trip_id), db)
  | some i =>
      let current_trip := db.getD i default
      match validateTrip (mergedDict current_trip trip_update now) with
      | none => (.error .internal, db)
      | some updated_trip => (.ok updated_trip, db.set i updated_trip)

/-- Model of `delete_trip` (src lines 302-319): `trips_db.pop(trip_index)`;
the ok response carries the removed record (the `deleted_trip` field of the
JSON reply). -/
def delete_trip (db : List Trip) (trip_id : String) :
    Except Err Trip × List Trip :=
  match find_trip_index db trip_id with
  | none => (.error (.notFound trip_id), db)
  | some i => (.ok (db.getD i default), db.eraseIdx i)

/-- Python `str.lower()` per character, on the alphabets this repository's
data actually uses: basic Latin A-Z and Cyrillic А-Я and Ё (the seed data is
Cyrillic).  Characters outside these ranges are unchanged, as in Python for
caseless characters. -/
def pyLowerChar (c : Char) : Char :=
  if 65 ≤ c.toNat ∧ c.toNat ≤ 90 then Char.ofNat (c.toNat + 32)
  else if 0x410 ≤ c.toNat ∧ c.toNat ≤ 0x42F then Char.ofNat (c.toNat + 0x20)
  else if c.toNat = 0x401 then Char.ofNat 0x451
  else c

/-- Python `str.lower()` on the model. -/
def lowerStr (s : String) : String :=
  String.mk (s.data.map pyLowerChar)

/-- Python substring membership `needle in haystack` on character lists. -/
def subOf (needle : List Char) : List Char → Bool
  | [] => needle.isEmpty
  | c :: rest => needle.isPrefixOf (c :: rest) || subOf needle rest

/-- Python `needle in haystack` for strings. -/
def strContains (haystack needle : String) : Bool :=
  subOf needle.data haystack.data

/-- Model of `search_trips` (src lines 360-387): sequentially narrow a copy
of the store by each supplied filter.  A `None` or empty-string text filter
is skipped (Python truthiness `if destination:`); the numeric filters are
checked against `None` explicitly (`is not None`). -/
def search_trips (db : List Trip) (destination country : Option String)
    (min_price max_price min_rating : Option Rat) : List Trip :=
  let results := db
  let results :=
    match destination with
    | some d =>
        if d ≠ "" then
          results.filter (fun t => strContains (lowerStr t.destination) (lowerStr d))
        else results
    | none => results
  let results :=
    match country with
    | some c =>
        if c ≠ "" then
          results.filter (fun t => strContains (lowerStr t.country) (lowerStr c))
        else results
    | none => results
  let results :=
    match min_price with
    | some p => results.filter (fun t => p ≤ t.price)
    | none => results
  let results :=
    match max_price with
    | some p => results.filter (fun t => t.price ≤ p)
    | none => results
  let results :=
    match min_rating with
    | some r => results.filter (fun t => r ≤ t.rating)
    | none => results
  results

/-- Per-field statistics dictionary built at src lines 345-351. -/
structure FieldStats where
  min : Rat
  max : Rat
  average : Rat
  sum : Rat
  count : Nat
deriving Repr, DecidableEq

/-- Numeric value `getattr(trip, f)` for the four numeric fields, as an
exact rational (ints embed exactly). -/
def numField (f : String) (t : Trip) : Rat :=
  match f with
  | "duration_days" => (t.duration_days : Rat)
  | "price" => t.price
  | "rating" => t.rating
  | "group_size" => (t.group_size : Rat)
  | _ => 0

/-- Python `min(values)` on a non-empty list (the empty case is guarded in
`get_statistics`; the `0` default is never reached there). -/
def listMin : List Rat → Rat
  | [] => 0
  | v :: vs => vs.foldl min v

/-- Python `max(values)` on a non-empty list. -/
def listMax : List Rat → Rat
  | [] => 0
  | v :: vs => vs.foldl max v

/-- Python `round(x, 2)`: round half to even at two decimal places, exact
on rationals. -/
def pyRound2 (x : Rat) : Rat :=
  let y := x * 100
  let f : Int := ⌊y⌋
  let r : Rat := y - (f : Rat)
  let n : Int :=
    if r < 1 / 2 then f
    else if 1 / 2 < r then f + 1
    else if f % 2 = 0 then f else f + 1
  (n : Rat) / 100

/-- Model of `numeric_fields` (src line 337). -/
def numeric_fields : List String :=
  ["duration_days", "price", "rating", "group_size"]

/-- Statistics block computed for one field (src lines 340-351). -/
def fieldStats (db : List Trip) (f : String) : FieldStats :=
  let values := db.map (numField f)
  { min := listMin values
    max := listMax values
    average := pyRound2 (values.sum / (values.length : Rat))
    sum := values.sum
    count := values.length }

/-- Two shapes of the `/statistics` response (src lines 330-357). -/
inductive StatsResult where
  | noData
  | stats (trip_count : Nat) (statistics : List (String × FieldStats))
      (calculated_at : Nat)
deriving Repr, DecidableEq

/-- Model of `get_statistics` (src lines 322-357). -/
def get_statistics (db : List Trip) (now : Nat) : StatsResult :=
  if db.isEmpty then .noData
  else
    .stats db.length (numeric_fields.map (fun f => (f, fieldStats db f))) now

/-- Model of `STATIC_TRIPS` (src lines 45-91): the five seed records,
before ids and timestamps are assigned. -/
def STATIC_TRIPS : List Trip :=
  [{ id := "", destination := "Париж", country := "Франция",
     travel_agency := "ТурМир", duration_days := 7, price := 120000,
     rating := (4.8 : Rat), group_size := 15, created_at := 0, updated_at := 0 },
   { id := "", destination := "Бали", country := "Индонезия",
     travel_agency := "АзияТур", duration_days := 10, price := 185000,
     rating := (4.6 : Rat), group_size := 12, created_at := 0, updated_at := 0 },
   { id := "", destination := "Токио", country := "Япония",
     travel_agency := "ВостокТур", duration_days := 8, price := 220000,
     rating := (4.9 : Rat), group_size := 8, created_at := 0, updated_at := 0 },
   { id := "", destination := "Нью-Йорк", country := "США",
     travel_agency := "АмерикаТур", duration_days := 12, price := 250000,
     rating := (4.7 : Rat), group_size := 20, created_at := 0, updated_at := 0 },
   { id := "", destination := "Дубай", country := "ОАЭ",
     travel_agency := "ВостокТур", duration_days := 9, price := 190000,
     rating := (4.5 : Rat), group_size := 18, created_at := 0, updated_at := 0 }]

/-- Model of `initialize_database` (src lines 98-112): clear the store and
append the seed records, each with a freshly generated id and current-time
timestamps.  The per-iteration `uuid.uuid4()` calls are the supplied `ids`;
the per-iteration `get_current_time()` calls are modelled as one tick `now`
(their successive values within one startup are indistinguishable to every
property claimed). -/
def initialize_database (ids : List String) (now : Nat) : List Trip :=
  (STATIC_TRIPS.zip ids).map
    (fun p => { p.1 with id := p.2, created_at := now, updated_at := now })

/-- HTTP methods used by the service. -/
inductive Method where
  | GET
  | POST
  | PUT
  | PATCH
  | DELETE
deriving Repr, DecidableEq

/-- Handler functions registered on the app, in source order. -/
inductive Handler where
  | rootInfo
  | getAllTrips
  | getTrip
  | createTrip
  | updateTrip
  | patchTrip
  | deleteTrip
  | statisticsH
  | searchTrips
  | healthCheck
deriving Repr, DecidableEq

/-- One segment of a route pattern: a literal, or a path parameter such as
the FastAPI placeholder for a trip id. -/
inductive Seg where
  | lit (s : String)
  | param
deriving Repr, DecidableEq

/-- A registered route: method, path pattern, handler. -/
structure Route where
  method : Method
  pattern : List Seg
  handler : Handler

/-- Route table in decorator order (src lines 143, 166, 198, 212, 237, 267,
302, 322, 360, 390).  FastAPI registers routes in the order the decorators
run, and Starlette dispatches to the first route that matches, so this
order is semantically significant. -/
def routes : List Route :=
  [⟨.GET, [], .rootInfo⟩,
   ⟨.GET, [.lit "trips"], .getAllTrips⟩,
   ⟨.GET, [.lit "trips", .param], .getTrip⟩,
   ⟨.POST, [.lit "trips"], .createTrip⟩,
   ⟨.PUT, [.lit "trips", .param], .updateTrip⟩,
   ⟨.PATCH, [.lit "trips", .param], .patchTrip⟩,
   ⟨.DELETE, [.lit "trips", .param], .deleteTrip⟩,
   ⟨.GET, [.lit "statistics"], .statisticsH⟩,
   ⟨.GET, [.lit "trips", .lit "search"], .searchTrips⟩,
   ⟨.GET, [.lit "health"], .healthCheck⟩]

/-- Match a pattern against a path (split on slashes); returns the captured
path parameters. -/
def matchSegs : List Seg → List String → Option (List String)
  | [], [] => some []
  | .lit s :: ps, x :: xs => if s = x then matchSegs ps xs else none
  | .param :: ps, x :: xs => (matchSegs ps xs).map (fun caps => x :: caps)
  | _, _ => none

/-- First-match route dispatch, as Starlette performs it. -/
def dispatch (m : Method) (path : List String) : Option (Handler × List String) :=
  routes.findSome? (fun r =>
    if r.method = m then
      (matchSegs r.pattern path).map (fun caps => (r.handler, caps))
    else none)

/-- Full server state the invariant claims range over: the store, the set
of identifiers `uuid.uuid4()` has ever produced (uuid4 collisions being the
probabilistic event the design assumes away), and the last observed clock
tick. -/
structure SState where
  db : List Trip
  used : List String
  clock : Nat

/-- One externally triggered transition of the service.  Mutating handlers
carry the freshness of the generated id (`uuid.uuid4()` never repeats) and
the monotonicity of the clock (`datetime.now()` never runs backwards) as
hypotheses; read-only handlers advance only the clock. -/
inductive Step : SState → SState → Prop where
  | create (s : SState) (body : Option Trip) (gid : String) (now : Nat)
      (hfresh : gid ∉ s.used) (hclock : s.clock ≤ now) :
      Step s ⟨(create_trip_route s.db body gid now).2, gid :: s.used, now⟩
  | replace (s : SState) (tid : String) (body : Trip) (now : Nat)
      (hclock : s.clock ≤ now) :
      Step s ⟨(update_trip s.db tid body now).2, s.used, now⟩
  | patch (s : SState) (tid : String) (m : List (String × Value)) (now : Nat)
      (hclock : s.clock ≤ now) :
      Step s ⟨(patch_trip s.db tid m now).2, s.used, now⟩
  | delete (s : SState) (tid : String) (now : Nat) (hclock : s.clock ≤ now) :
      Step s ⟨(delete_trip s.db tid).2, s.used, now⟩
  | query (s : SState) (now : Nat) (hclock : s.clock ≤ now) :
      Step s ⟨s.db, s.used, now⟩

/-- States the service can actually be in: startup seeding (with distinct
fresh uuids) followed by any sequence of requests. -/
inductive Reachable : SState → Prop where
  | init (ids : List String) (now : Nat) (hids : ids.Nodup) :
      Reachable ⟨initialize_database ids now, ids, now⟩
  | step (s s' : SState) : Reachable s → Step s s' → Reachable s'

/-- Data-model invariants of the spec, as a predicate on a server state:
stored ids are pairwise distinct and drawn from the generated set, and
every record's timestamps satisfy `created_at ≤ updated_at ≤ clock`. -/
structure StoreInv (s : SState) : Prop where
  nodup : (s.db.map Trip.id).Nodup
  sub : ∀ t ∈ s.db, t.id ∈ s.used
  ts : ∀ t ∈ s.db, t.created_at ≤ t.updated_at
  cl : ∀ t ∈ s.db, t.updated_at ≤ s.clock

/-- Whether a request-mapping entry carries a value the declared type of the
field it names can be coerced from; entries for unknown keys and for the
protected or overwritten keys are unconstrained. -/
def wtKey : String → Value → Bool
  | "destination", v => (coerceStr v).isSome
  | "country", v => (coerceStr v).isSome
  | "travel_agency", v => (coerceStr v).isSome
  | "duration_days", v => (coerceInt v).isSome
  | "price", v => (coerceRat v).isSome
  | "rating", v => (coerceRat v).isSome
  | "group_size", v => (coerceInt v).isSome
  | _, _ => true

/-- A PATCH mapping whose values are all convertible to the declared types
of the fields they name. -/
def wellTyped (m : List (String × Value)) : Bool :=
  m.all (fun kv => wtKey kv.1 kv.2)

/-- Value a mutable field ends up with after the merge: the request
mapping's value (through the field's coercion) when the key is present, the
old stored value otherwise. -/
def mergedField {β : Type} (coe : Value → Option β) (oldv : β)
    (m : List (String × Value)) (k : String) : β :=
  match dget m k with
  | some v => (coe v).getD oldv
  | none => oldv

/-- Record `patch(id, m)` stores and returns, per the spec's merge
semantics: `id` and `created_at` from the old record, `updated_at` the
current time, every mutable field merged from the mapping, keys that name
no Trip field ignored. -/
def mergedTrip (old : Trip) (m : List (String × Value)) (now : Nat) : Trip :=
  { id := old.id
    destination := mergedField coerceStr old.destination m "destination"
    country := mergedField coerceStr old.country m "country"
    travel_agency := mergedField coerceStr old.travel_agency m "travel_agency"
    duration_days := mergedField coerceInt old.duration_days m "duration_days"
    price := mergedField coerceRat old.price m "price"
    rating := mergedField coerceRat old.rating m "rating"
    group_size := mergedField coerceInt old.group_size m "group_size"
    created_at := old.created_at
    updated_at := now }

/-- Conjunction of the supplied search filters, as the spec states them:
case-insensitive substring matches on `destination`/`country`, inclusive
bounds on `price`, an inclusive lower bound on `rating`; an absent filter
imposes no constraint. -/
def matchesFilters (destination country : Option String)
    (min_price max_price min_rating : Option Rat) (t : Trip) : Bool :=
  (match destination with
   | some d => strContains (lowerStr t.destination) (lowerStr d)
   | none => true) &&
  (match country with
   | some c => strContains (lowerStr t.country) (lowerStr c)
   | none => true) &&
  (match min_price with
   | some p => decide (p ≤ t.price)
   | none => true) &&
  (match max_price with
   | some p => decide (t.price ≤ p)
   | none => true) &&
  (match min_rating with
   | some r => decide (r ≤ t.rating)
   | none => true)

/-- Concrete stored record used to instantiate theorems on concrete
inputs. -/
def tripA : Trip :=
  { id := "a", destination := "Paris", country := "France",
    travel_agency := "WorldTour", duration_days := 7, price := 120000,
    rating := (4.8 : Rat), group_size := 15, created_at := 1, updated_at := 1 }

/-- Seeded startup state with concrete fresh ids, used to instantiate the
invariant theorem. -/
def seededState : SState :=
  ⟨initialize_database ["a", "b", "c", "d", "e"] 0, ["a", "b", "c", "d", "e"], 0⟩

/-- A known field name yields a value on every record. -/
theorem getField_isSome_of_isTripField (f : String) (hf : isTripField f = true)
    (t : Trip) : (getField t f).isSome := by
  unfold isTripField getField at *
  repeat' split at hf
  all_goals simp_all

/-- An index returned by `findIdx?` holds an element satisfying the
predicate. -/
theorem findIdx?_spec {α : Type} {p : α → Bool} {l : List α} :
    ∀ {i : Nat}, l.findIdx? p = some i → ∃ a, l[i]? = some a ∧ p a = true := by
  induction l with
  | nil => intro i h; simp at h
  | cons x xs ih =>
    intro i h
    rw [List.findIdx?_cons] at h
    by_cases hx : p x
    · simp only [hx, if_true] at h
      cases h
      exact ⟨x, by simp, hx⟩
    · simp only [hx, if_false, List.findIdx?_succ] at h
      cases hfi : xs.findIdx? p with
      | none => rw [hfi] at h; simp at h
      | some j =>
          rw [hfi] at h
          simp only [Option.map_some'] at h
          cases h
          obtain ⟨a, ha, hpa⟩ := ih hfi
          exact ⟨a, by simpa using ha, hpa⟩

/-- Writing back the element already at an index leaves the list
unchanged. -/
theorem set_getElem?_self {α : Type} {l : List α} :
    ∀ {i : Nat} {a : α}, l[i]? = some a → l.set i a = l := by
  induction l with
  | nil => intro i a h; simp at h
  | cons x xs ih =>
    intro i a h
    cases i with
    | zero => simp at h; simp [h]
    | succ j => simp at h; simp [List.set, ih h]

/-- Second components of a zip form a sublist of the second list. -/
theorem zip_map_snd_sublist {α β : Type} :
    ∀ (a : List α) (b : List β), List.Sublist ((a.zip b).map Prod.snd) b := by
  intro a
  induction a with
  | nil => intro b; simp
  | cons x xs ih =>
    intro b
    cases b with
    | nil => simp
    | cons y ys => simpa using (ih ys).cons₂ y

/-- A min-fold is a lower bound of its seed and of every element. -/
theorem foldl_min_le {β : Type} [LinearOrder β] (l : List β) :
    ∀ (a : β), l.foldl min a ≤ a ∧ ∀ x ∈ l, l.foldl min a ≤ x := by
  induction l with
  | nil => intro a; simp
  | cons x xs ih =>
    intro a
    have h := ih (min a x)
    refine ⟨le_trans h.1 (min_le_left a x), ?_⟩
    intro y hy
    rcases List.mem_cons.mp hy with rfl | hy
    · exact le_trans h.1 (min_le_right a y)
    · exact h.2 y hy

/-- A min-fold equals its seed or some list element. -/
theorem foldl_min_mem {β : Type} [LinearOrder β] (l : List β) :
    ∀ (a : β), l.foldl min a = a ∨ l.foldl min a ∈ l := by
  induction l with
  | nil => intro a; simp
  | cons x xs ih =>
    intro a
    rcases ih (min a x) with h | h
    · rcases min_choice a x with hm | hm
      · left; simpa [List.foldl] using h.trans hm
      · right; rw [List.foldl, h, hm]; exact List.mem_cons_self x xs
    · right; exact List.mem_cons_of_mem x h

/-- A max-fold is an upper bound of its seed and of every element. -/
theorem le_foldl_max {β : Type} [LinearOrder β] (l : List β) :
    ∀ (a : β), a ≤ l.foldl max a ∧ ∀ x ∈ l, x ≤ l.foldl max a := by
  induction l with
  | nil => intro a; simp
  | cons x xs ih =>
    intro a
    have h := ih (max a x)
    refine ⟨le_trans (le_max_left a x) h.1, ?_⟩
    intro y hy
    rcases List.mem_cons.mp hy with rfl | hy
    · exact le_trans (le_max_right a y) h.1
    · exact h.2 y hy

/-- A max-fold equals its seed or some list element. -/
theorem foldl_max_mem {β : Type} [LinearOrder β] (l : List β) :
    ∀ (a : β), l.foldl max a = a ∨ l.foldl max a ∈ l := by
  induction l with
  | nil => intro a; simp
  | cons x xs ih =>
    intro a
    rcases ih (max a x) with h | h
    · rcases max_choice a x with hm | hm
      · left; simpa [List.foldl] using h.trans hm
      · right; rw [List.foldl, h, hm]; exact List.mem_cons_self x xs
    · right; exact List.mem_cons_of_mem x h

/-- Lookup on a cons cell. -/
theorem dget_cons (p : String × Value) (ps : List (String × Value)) (k : String) :
    dget (p :: ps) k = if p.1 == k then some p.2 else dget ps k := by
  cases hp : (p.1 == k) <;> simp [dget, List.find?_cons, hp]

/-- Assignment on a cons cell. -/
theorem setVal_cons (p : String × Value) (ps : List (String × Value)) (k : String)
    (v : Value) :
    setVal (p :: ps) k v = (if p.1 == k then (p.1, v) else p) :: setVal ps k v := by
  simp [setVal]

/-- Key membership agrees with lookup success. -/
theorem hasKey_eq_isSome (d : List (String × Value)) (k : String) :
    hasKey d k = (dget d k).isSome := by
  unfold hasKey
  induction d with
  | nil => rfl
  | cons p ps ih =>
    rw [List.any_cons, dget_cons]
    cases hp : (p.1 == k)
    · simpa [hp] using ih
    · simp [hp]

/-- Lookup at the assigned key. -/
theorem dget_setVal_self (d : List (String × Value)) (k : String) (v : Value) :
    dget (setVal d k v) k = if (dget d k).isSome then some v else none := by
  induction d with
  | nil => rfl
  | cons p ps ih =>
    rw [setVal_cons, dget_cons, dget_cons]
    cases hp : (p.1 == k)
    · simp only [hp, Bool.false_eq_true, if_false]
      exact ih
    · simp [hp]

/-- Lookup at a different key is untouched by an assignment. -/
theorem dget_setVal_ne (d : List (String × Value)) {k k' : String} (h : k' ≠ k)
    (v : Value) : dget (setVal d k v) k' = dget d k' := by
  induction d with
  | nil => rfl
  | cons p ps ih =>
    rw [setVal_cons, dget_cons, dget_cons]
    cases hpk : (p.1 == k)
    · simp only [hpk, Bool.false_eq_true, if_false]
      cases hp' : (p.1 == k') <;> simp [hp', ih]
    · have hpk' : (p.1 == k') = false := by
        have : p.1 = k := beq_iff_eq.mp hpk
        simp [this]
        exact fun he => h he.symm
      simp [hpk', ih]

/-- Assignment preserves which keys are present. -/
theorem isSome_dget_setVal (d : List (String × Value)) (k : String) (v : Value)
    (k' : String) : (dget (setVal d k v) k').isSome = (dget d k').isSome := by
  by_cases h : k' = k
  · subst h
    rw [dget_setVal_self]
    cases hd : (dget d k').isSome <;> simp [hd]
  · rw [dget_setVal_ne d h]

/-- One iteration of the update loop. -/
theorem applyUpdates_cons (d : List (String × Value)) (kv : String × Value)
    (rest : List (String × Value)) :
    applyUpdates d (kv :: rest) =
      applyUpdates
        (if hasKey d kv.1 && kv.1 != "id" && kv.1 != "created_at" then
           setVal d kv.1 kv.2
         else d)
        rest := by
  simp [applyUpdates]

/-- A key absent from the mapping is untouched by the update loop. -/
theorem dget_applyUpdates_none (d m : List (String × Value)) (k : String)
    (hm : dget m k = none) : dget (applyUpdates d m) k = dget d k := by
  induction m generalizing d with
  | nil => rfl
  | cons kv rest ih =>
    have hk : (kv.1 == k) = false := by
      cases h : (kv.1 == k)
      · rfl
      · simp [dget, List.find?_cons, h] at hm
    have hrest : dget rest k = none := by
      simpa [dget, List.find?_cons, hk] using hm
    rw [applyUpdates_cons, ih _ hrest]
    split
    · exact dget_setVal_ne _ (by simpa using fun he => by simp [he] at hk) _
    · rfl

/-- The update loop preserves which keys are present. -/
theorem isSome_dget_applyUpdates (d m : List (String × Value)) (k : String) :
    (dget (applyUpdates d m) k).isSome = (dget d k).isSome := by
  induction m generalizing d with
  | nil => rfl
  | cons kv rest ih =>
    rw [applyUpdates_cons, ih]
    split
    · exact isSome_dget_setVal _ _ _ _
    · rfl

/-- The update loop never touches `id` or `created_at`. -/
theorem dget_applyUpdates_protected (d m : List (String × Value)) (k : String)
    (hk : k = "id" ∨ k = "created_at") :
    dget (applyUpdates d m) k = dget d k := by
  induction m generalizing d with
  | nil => rfl
  | cons kv rest ih =>
    rw [applyUpdates_cons, ih]
    by_cases hkv : kv.1 = k
    · subst hkv
      rcases hk with h | h <;> simp [h]
    · split
      · exact dget_setVal_ne _ (fun he => hkv he.symm) _
      · rfl

/-- Lookup of a key outside the key list fails. -/
theorem dget_eq_none_of_not_mem_keys {m : List (String × Value)} {k : String}
    (h : k ∉ m.map Prod.fst) : dget m k = none := by
  rw [dget, Option.map_eq_none', List.find?_eq_none]
  intro p hp hbeq
  exact h (List.mem_map.mpr ⟨p, hp, (beq_iff_eq.mp hbeq)⟩)

/-- Effect of the update loop at a key of the mapping (unique keys, as in a
Python dict): overwritten when present in the dict and not protected,
untouched otherwise. -/
theorem dget_applyUpdates_some (d m : List (String × Value)) (k : String)
    (v : Value) (hnd : (m.map Prod.fst).Nodup) (hm : dget m k = some v) :
    dget (applyUpdates d m) k =
      if hasKey d k && (k != "id") && (k != "created_at") then some v
      else dget d k := by
  induction m generalizing d with
  | nil => simp [dget] at hm
  | cons kv rest ih =>
    obtain ⟨k1, v1⟩ := kv
    rw [List.map_cons] at hnd
    have hnd' : (rest.map Prod.fst).Nodup := (List.nodup_cons.mp hnd).2
    rw [dget_cons] at hm
    rw [applyUpdates_cons]
    by_cases hkk : k1 = k
    · subst hkk
      simp only [beq_self_eq_true, if_true] at hm
      have hv : v1 = v := by injection hm
      have hknotin : k1 ∉ rest.map Prod.fst := (List.nodup_cons.mp hnd).1
      have hrest : dget rest k1 = none := dget_eq_none_of_not_mem_keys hknotin
      rw [dget_applyUpdates_none _ _ _ hrest, hasKey_eq_isSome]
      by_cases hc : ((dget d k1).isSome && (k1 != "id") && (k1 != "created_at")) = true
      · rw [if_pos hc, if_pos hc, dget_setVal_self]
        have hs : (dget d k1).isSome = true := by
          rcases Bool.and_eq_true_iff.mp hc with ⟨h1, _⟩
          exact (Bool.and_eq_true_iff.mp h1).1
        rw [if_pos hs, hv]
      · rw [if_neg hc, if_neg hc]
    · have hk : (k1 == k) = false := by
        simp [hkk]
      rw [hk] at hm
      simp only [Bool.false_eq_true, if_false] at hm
      have hne : k ≠ k1 := fun he => hkk he.symm
      split
      · rw [ih _ hnd' hm, hasKey_eq_isSome, hasKey_eq_isSome,
          isSome_dget_setVal, dget_setVal_ne _ hne]
      · exact ih _ hnd' hm

/-- Lookup of `id` in a record's dict. -/
theorem dget_toDict_id (t : Trip) : dget t.toDict "id" = some (.s t.id) := rfl

/-- Lookup of `destination` in a record's dict. -/
theorem dget_toDict_destination (t : Trip) :
    dget t.toDict "destination" = some (.s t.destination) := rfl

/-- Lookup of `country` in a record's dict. -/
theorem dget_toDict_country (t : Trip) :
    dget t.toDict "country" = some (.s t.country) := rfl

/-- Lookup of `travel_agency` in a record's dict. -/
theorem dget_toDict_travel_agency (t : Trip) :
    dget t.toDict "travel_agency" = some (.s t.travel_agency) := rfl

/-- Lookup of `duration_days` in a record's dict. -/
theorem dget_toDict_duration_days (t : Trip) :
    dget t.toDict "duration_days" = some (.i t.duration_days) := rfl

/-- Lookup of `price` in a record's dict. -/
theorem dget_toDict_price (t : Trip) :
    dget t.toDict "price" = some (.q t.price) := rfl

/-- Lookup of `rating` in a record's dict. -/
theorem dget_toDict_rating (t : Trip) :
    dget t.toDict "rating" = some (.q t.rating) := rfl

/-- Lookup of `group_size` in a record's dict. -/
theorem dget_toDict_group_size (t : Trip) :
    dget t.toDict "group_size" = some (.i t.group_size) := rfl

/-- Lookup of `created_at` in a record's dict. -/
theorem dget_toDict_created_at (t : Trip) :
    dget t.toDict "created_at" = some (.t t.created_at) := rfl

/-- Lookup of `updated_at` in a record's dict. -/
theorem dget_toDict_updated_at (t : Trip) :
    dget t.toDict "updated_at" = some (.t t.updated_at) := rfl

/-- Every value looked up in a well-typed mapping is convertible for its
key. -/
theorem wellTyped_dget {m : List (String × Value)} {k : String} {v : Value}
    (hwt : wellTyped m = true) (h : dget m k = some v) : wtKey k v = true := by
  rw [dget] at h
  cases hf : m.find? (fun p => p.1 == k) with
  | none => rw [hf] at h; simp at h
  | some p =>
      rw [hf] at h
      simp only [Option.map_some'] at h
      have hv : p.2 = v := by injection h
      have hmem := List.mem_of_find?_eq_some hf
      have hpk1 := List.find?_some hf
      have hpk : p.1 = k := by simpa using hpk1
      have := List.all_eq_true.mp hwt p hmem
      rwa [hpk, hv] at this

/-- The merged dictionary keeps the old `id`. -/
theorem dget_mergedDict_id (old : Trip) (m : List (String × Value)) (now : Nat) :
    dget (mergedDict old m now) "id" = some (.s old.id) := by
  unfold mergedDict
  rw [dget_setVal_ne _ (by decide), dget_applyUpdates_protected _ _ _ (Or.inl rfl),
    dget_toDict_id]

/-- The merged dictionary keeps the old `created_at`. -/
theorem dget_mergedDict_created_at (old : Trip) (m : List (String × Value))
    (now : Nat) :
    dget (mergedDict old m now) "created_at" = some (.t old.created_at) := by
  unfold mergedDict
  rw [dget_setVal_ne _ (by decide), dget_applyUpdates_protected _ _ _ (Or.inr rfl),
    dget_toDict_created_at]

/-- The merged dictionary carries the fresh `updated_at`. -/
theorem dget_mergedDict_updated_at (old : Trip) (m : List (String × Value))
    (now : Nat) :
    dget (mergedDict old m now) "updated_at" = some (.t now) := by
  unfold mergedDict
  rw [dget_setVal_self]
  have h : (dget (applyUpdates old.toDict m) "updated_at").isSome = true := by
    rw [isSome_dget_applyUpdates, dget_toDict_updated_at]
    rfl
  rw [if_pos h]

/-- Lookup-and-coerce of a mutable field in the merged dictionary yields
exactly the merged field value. -/
theorem bind_mergedDict_mut {β : Type} (old : Trip) (m : List (String × Value))
    (now : Nat) (k : String) (coe : Value → Option β) (oldv : β) (rawv : Value)
    (hnd : (m.map Prod.fst).Nodup)
    (hraw : dget old.toDict k = some rawv) (hcoe : coe rawv = some oldv)
    (hne1 : (k != "id") = true) (hne2 : (k != "created_at") = true)
    (hne3 : k ≠ "updated_at")
    (hwtk : ∀ v, dget m k = some v → (coe v).isSome = true) :
    (dget (mergedDict old m now) k >>= coe) = some (mergedField coe oldv m k) := by
  unfold mergedDict
  rw [dget_setVal_ne _ hne3]
  cases hm : dget m k with
  | none =>
      rw [dget_applyUpdates_none _ _ _ hm, hraw]
      simp [mergedField, hm, hcoe]
  | some v =>
      rw [dget_applyUpdates_some _ _ _ _ hnd hm]
      have hk : hasKey old.toDict k = true := by
        rw [hasKey_eq_isSome, hraw]; rfl
      rw [hk, hne1, hne2]
      simp only [Bool.and_self, Bool.and_true, if_true]
      obtain ⟨w, hw⟩ := Option.isSome_iff_exists.mp (hwtk v hm)
      simp [mergedField, hm, hw]

/-- Whatever dictionary `Trip(**d)` succeeds on, the resulting record's
service fields are exactly the coerced dictionary entries. -/
theorem validateTrip_spec {d : List (String × Value)} {u : Trip}
    (h : validateTrip d = some u) :
    (dget d "id" >>= coerceStr) = some u.id ∧
    (dget d "created_at" >>= coerceTime) = some u.created_at ∧
    (dget d "updated_at" >>= coerceTime) = some u.updated_at := by
  unfold validateTrip at h
  simp only [Option.bind_eq_bind, Option.pure_def] at h
  simp only [Option.bind_eq_bind]
  cases h1 : (dget d "id").bind coerceStr with
  | none => rw [h1] at h; simp at h
  | some i =>
  rw [h1] at h; simp only [Option.some_bind] at h
  cases h2 : (dget d "destination").bind coerceStr with
  | none => rw [h2] at h; simp at h
  | some dest =>
  rw [h2] at h; simp only [Option.some_bind] at h
  cases h3 : (dget d "country").bind coerceStr with
  | none => rw [h3] at h; simp at h
  | some co =>
  rw [h3] at h; simp only [Option.some_bind] at h
  cases h4 : (dget d "travel_agency").bind coerceStr with
  | none => rw [h4] at h; simp at h
  | some ag =>
  rw [h4] at h; simp only [Option.some_bind] at h
  cases h5 : (dget d "duration_days").bind coerceInt with
  | none => rw [h5] at h; simp at h
  | some du =>
  rw [h5] at h; simp only [Option.some_bind] at h
  cases h6 : (dget d "price").bind coerceRat with
  | none => rw [h6] at h; simp at h
  | some pr =>
  rw [h6] at h; simp only [Option.some_bind] at h
  cases h7 : (dget d "rating").bind coerceRat with
  | none => rw [h7] at h; simp at h
  | some ra =>
  rw [h7] at h; simp only [Option.some_bind] at h
  cases h8 : (dget d "group_size").bind coerceInt with
  | none => rw [h8] at h; simp at h
  | some gs =>
  rw [h8] at h; simp only [Option.some_bind] at h
  cases h9 : (dget d "created_at").bind coerceTime with
  | none => rw [h9] at h; simp at h
  | some ca =>
  rw [h9] at h; simp only [Option.some_bind] at h
  cases h10 : (dget d "updated_at").bind coerceTime with
  | none => rw [h10] at h; simp at h
  | some ua =>
  rw [h10] at h
  simp only [Option.some_bind, Option.some.injEq] at h
  subst h
  exact ⟨rfl, rfl, rfl⟩

/-- On a well-typed mapping with dict-unique keys, `patch_trip`'s
re-validation succeeds and produces exactly the merged record. -/
theorem validate_mergedDict (old : Trip) (m : List (String × Value)) (now : Nat)
    (hnd : (m.map Prod.fst).Nodup) (hwt : wellTyped m = true) :
    validateTrip (mergedDict old m now) = some (mergedTrip old m now) := by
  have hdest := bind_mergedDict_mut old m now "destination" coerceStr
    old.destination (.s old.destination) hnd (dget_toDict_destination old) rfl
    (by decide) (by decide) (by decide)
    (fun v h => by
      have hw := wellTyped_dget hwt h
      rwa [show wtKey "destination" v = (coerceStr v).isSome from rfl] at hw)
  have hco := bind_mergedDict_mut old m now "country" coerceStr
    old.country (.s old.country) hnd (dget_toDict_country old) rfl
    (by decide) (by decide) (by decide)
    (fun v h => by
      have hw := wellTyped_dget hwt h
      rwa [show wtKey "country" v = (coerceStr v).isSome from rfl] at hw)
  have hag := bind_mergedDict_mut old m now "travel_agency" coerceStr
    old.travel_agency (.s old.travel_agency) hnd (dget_toDict_travel_agency old)
    rfl (by decide) (by decide) (by decide)
    (fun v h => by
      have hw := wellTyped_dget hwt h
      rwa [show wtKey "travel_agency" v = (coerceStr v).isSome from rfl] at hw)
  have hdu := bind_mergedDict_mut old m now "duration_days" coerceInt
    old.duration_days (.i old.duration_days) hnd (dget_toDict_duration_days old)
    rfl (by decide) (by decide) (by decide)
    (fun v h => by
      have hw := wellTyped_dget hwt h
      rwa [show wtKey "duration_days" v = (coerceInt v).isSome from rfl] at hw)
  have hpr := bind_mergedDict_mut old m now "price" coerceRat
    old.price (.q old.price) hnd (dget_toDict_price old) rfl
    (by decide) (by decide) (by decide)
    (fun v h => by
      have hw := wellTyped_dget hwt h
      rwa [show wtKey "price" v = (coerceRat v).isSome from rfl] at hw)
  have hra := bind_mergedDict_mut old m now "rating" coerceRat
    old.rating (.q old.rating) hnd (dget_toDict_rating old) rfl
    (by decide) (by decide) (by decide)
    (fun v h => by
      have hw := wellTyped_dget hwt h
      rwa [show wtKey "rating" v = (coerceRat v).isSome from rfl] at hw)
  have hgs := bind_mergedDict_mut old m now "group_size" coerceInt
    old.group_size (.i old.group_size) hnd (dget_toDict_group_size old) rfl
    (by decide) (by decide) (by decide)
    (fun v h => by
      have hw := wellTyped_dget hwt h
      rwa [show wtKey "group_size" v = (coerceInt v).isSome from rfl] at hw)
  simp only [validateTrip, dget_mergedDict_id, dget_mergedDict_created_at,
    dget_mergedDict_updated_at, hdest, hco, hag, hdu, hpr, hra, hgs,
    coerceStr, coerceTime, Option.some_bind, Option.pure_def]
  rfl

/-- The empty string is a substring of everything. -/
theorem subOf_nil (hs : List Char) : subOf [] hs = true := by
  induction hs with
  | nil => rfl
  | cons c rest ih => simp [subOf, List.isPrefixOf, ih]

/-- Python's empty-needle containment is always true. -/
theorem strContains_empty (h : String) : strContains h "" = true := by
  unfold strContains
  exact subOf_nil _

/-- One text-filter stage of `search_trips` equals a total filter (the
skipped empty-string filter is vacuously true). -/
theorem textStage_eq (db : List Trip) (o : Option String) (g : Trip → String) :
    (match o with
     | some d =>
         if d ≠ "" then
           db.filter (fun t => strContains (lowerStr (g t)) (lowerStr d))
         else db
     | none => db) =
      db.filter (fun t =>
        match o with
        | some d => strContains (lowerStr (g t)) (lowerStr d)
        | none => true) := by
  cases o with
  | none => exact (List.filter_true db).symm
  | some d =>
      show (if d ≠ "" then
              db.filter (fun t => strContains (lowerStr (g t)) (lowerStr d))
            else db) =
          db.filter (fun t => strContains (lowerStr (g t)) (lowerStr d))
      by_cases hd : d = ""
      · subst hd
        simp only [ne_eq, not_true_eq_false, if_false]
        refine (List.filter_eq_self.mpr ?_).symm
        intro t _
        have h0 : lowerStr "" = "" := rfl
        rw [h0, strContains_empty]
      · rw [if_pos hd]

/-- One numeric-filter stage of `search_trips` equals a total filter. -/
theorem numStage_eq (db : List Trip) (o : Option Rat) (pred : Rat → Trip → Bool) :
    (match o with
     | some p => db.filter (pred p)
     | none => db) =
      db.filter (fun t =>
        match o with
        | some p => pred p t
        | none => true) := by
  cases o with
  | none => exact (List.filter_true db).symm
  | some p =>
      show db.filter (pred p) = db.filter (fun t => pred p t)
      rfl

/-- Claim C4: search returns exactly the records satisfying the conjunction
of the supplied filters, in store order; the empty filter set returns the
store unchanged; and the substring match is case-insensitive on the
repository's actual Cyrillic data (an upper-case query finds the
mixed-case stored destination on the seeded store). -/
theorem C4_search_filters (db : List Trip) (dest co : Option String)
    (minp maxp minr : Option Rat) :
    search_trips db dest co minp maxp minr =
      db.filter (matchesFilters dest co minp maxp minr) ∧
    search_trips db none none none none none = db ∧
    (search_trips (initialize_database ["a", "b", "c", "d", "e"] 0)
        (some "ПАРИЖ") none none none none).map Trip.destination =
      ["Париж"] := by
  refine ⟨?_, rfl, by decide⟩
  · simp only [search_trips]
    rw [textStage_eq db dest (fun t => t.destination)]
    rw [textStage_eq _ co (fun t => t.country)]
    rw [numStage_eq _ minp (fun p t => decide (p ≤ t.price))]
    rw [numStage_eq _ maxp (fun p t => decide (t.price ≤ p))]
    rw [numStage_eq _ minr (fun r t => decide (r ≤ t.rating))]
    simp only [List.filter_filter]
    refine List.filter_congr ?_
    intro t _
    unfold matchesFilters
    cases dest <;> cases co <;> cases minp <;> cases maxp <;> cases minr <;>
      simp [Bool.and_comm, Bool.and_left_comm, Bool.and_assoc]

/-- Claim C2: replace keeps the original id and `created_at`, stamps
`updated_at`, takes all other fields from the request body, writes at the
original position leaving every other record unchanged, and yields NotFound
for an unknown id. -/
theorem C2_replace (db : List Trip) (tid : String) (body : Trip) (now : Nat) :
    (∀ i old, find_trip_index db tid = some i → db[i]? = some old →
      ∃ u, update_trip db tid body now = (.ok u, db.set i u) ∧
        u.id = old.id ∧ u.created_at = old.created_at ∧ u.updated_at = now ∧
        u.destination = body.destination ∧ u.country = body.country ∧
        u.travel_agency = body.travel_agency ∧
        u.duration_days = body.duration_days ∧ u.price = body.price ∧
        u.rating = body.rating ∧ u.group_size = body.group_size ∧
        (db.set i u).length = db.length ∧
        (∀ j, j ≠ i → (db.set i u)[j]? = db[j]?)) ∧
    (find_trip_index db tid = none →
      update_trip db tid body now = (.error (.notFound tid), db)) := by
  constructor
  · intro i old hf hold
    obtain ⟨a, ha, hpa⟩ := findIdx?_spec hf
    have haold : a = old := by rw [ha] at hold; injection hold
    subst haold
    have hid : a.id = tid := by simpa using hpa
    have hgd : db[i]?.getD default = a := by
      rw [ha]; rfl
    refine ⟨{ body with id := tid, created_at := a.created_at, updated_at := now }, ?_, hid.symm, rfl, rfl, rfl, rfl, rfl, rfl, rfl, rfl, rfl, by simp, ?_⟩
    · simp [update_trip, hf, hgd]
    · intro j hj
      exact List.getElem?_set_ne (fun he => hj he.symm)
  · intro hf
    simp [update_trip, hf]

/-- Witness for C2 at a one-record store, with a body carrying
client-supplied id and timestamps. -/
theorem C2_witness :
    ∃ u, update_trip [tripA] "a"
        { id := "client", destination := "Oslo", country := "Norway",
          travel_agency := "NordTour", duration_days := 4, price := 50000,
          rating := (4.1 : Rat), group_size := 6, created_at := 9,
          updated_at := 9 } 3 = (.ok u, [tripA].set 0 u) ∧
      u.id = tripA.id ∧ u.created_at = tripA.created_at ∧ u.updated_at = 3 := by
  obtain ⟨u, h1, h2, h3, h4, -⟩ :=
    (C2_replace [tripA] "a"
      { id := "client", destination := "Oslo", country := "Norway",
        travel_agency := "NordTour", duration_days := 4, price := 50000,
        rating := (4.1 : Rat), group_size := 6, created_at := 9,
        updated_at := 9 } 3).1 0 tripA rfl rfl
  exact ⟨u, h1, h2, h3, h4⟩

/-- Claim C7: every handler that signals an error leaves the store exactly
as it was. -/
theorem C7_atomic_errors (db : List Trip) (tid gid : String) (body : Option Trip)
    (bt : Trip) (m : List (String × Value)) (now : Nat) (e : Err) :
    ((create_trip_route db body gid now).1 = .error e →
      (create_trip_route db body gid now).2 = db) ∧
    ((update_trip db tid bt now).1 = .error e →
      (update_trip db tid bt now).2 = db) ∧
    ((patch_trip db tid m now).1 = .error e →
      (patch_trip db tid m now).2 = db) ∧
    ((delete_trip db tid).1 = .error e → (delete_trip db tid).2 = db) := by
  refine ⟨?_, ?_, ?_, ?_⟩
  · cases body with
    | none => intro _; rfl
    | some bt2 => intro he; simp [create_trip_route] at he
  · cases hf : find_trip_index db tid with
    | none => intro _; simp [update_trip, hf]
    | some i => intro he; simp [update_trip, hf] at he
  · cases hf : find_trip_index db tid with
    | none => intro _; simp only [patch_trip, hf]
    | some i =>
        cases hv : validateTrip (mergedDict (db.getD i default) m now) with
        | none => intro _; simp only [patch_trip, hf, hv]
        | some u =>
            intro he
            simp only [patch_trip, hf, hv] at he
            cases he
  · cases hf : find_trip_index db tid with
    | none => intro _; simp [delete_trip, hf]
    | some i => intro he; simp [delete_trip, hf] at he

/-- Witness for C7: each failing operation at a concrete input leaves the
concrete store intact. -/
theorem C7_witness :
    (create_trip_route [tripA] none "g" 0).2 = [tripA] ∧
    (update_trip [tripA] "z" tripA 0).2 = [tripA] ∧
    (patch_trip [tripA] "z" [] 0).2 = [tripA] ∧
    (delete_trip [tripA] "z").2 = [tripA] :=
  ⟨(C7_atomic_errors [tripA] "z" "g" none tripA [] 0 .unprocessable).1 rfl,
   (C7_atomic_errors [tripA] "z" "g" none tripA [] 0 (.notFound "z")).2.1 rfl,
   (C7_atomic_errors [tripA] "z" "g" none tripA [] 0 (.notFound "z")).2.2.1 rfl,
   (C7_atomic_errors [tripA] "z" "g" none tripA [] 0 (.notFound "z")).2.2.2 rfl⟩

/-- Claim C8 (divergence witness): `GET /trips/search` is captured by the
earlier-registered route `GET /trips/{trip_id}` with `trip_id = "search"`,
so on a freshly seeded store the request yields 404 NotFound instead of the
filtered list the spec's route table promises. -/
theorem C8_search_route_shadowed :
    dispatch .GET ["trips", "search"] = some (.getTrip, ["search"]) ∧
    (∀ caps, dispatch .GET ["trips", "search"] ≠ some (.searchTrips, caps)) ∧
    get_trip (initialize_database ["a", "b", "c", "d", "e"] 0) "search" =
      .error (.notFound "search") := by
  refine ⟨by decide, ?_, rfl⟩
  intro caps h
  rw [show dispatch .GET ["trips", "search"] = some (.getTrip, ["search"])
    from by decide] at h
  simp at h

/-- Claim C9: the stored and returned record of create is independent of
any client-supplied `id`, `created_at`, `updated_at`. -/
theorem C9_create_uniform (db : List Trip) (t1 t2 : Trip) (gid : String)
    (now : Nat) (h1 : t1.destination = t2.destination)
    (h2 : t1.country = t2.country) (h3 : t1.travel_agency = t2.travel_agency)
    (h4 : t1.duration_days = t2.duration_days) (h5 : t1.price = t2.price)
    (h6 : t1.rating = t2.rating) (h7 : t1.group_size = t2.group_size) :
    create_trip db t1 gid now = create_trip db t2 gid now := by
  unfold create_trip
  cases t1
  cases t2
  simp_all

/-- Witness for C9: two bodies differing only in `id` and the timestamps
produce identical results. -/
theorem C9_witness :
    create_trip []
      { id := "x", destination := "Rome", country := "Italy",
        travel_agency := "SunTour", duration_days := 5, price := 90000,
        rating := (4.2 : Rat), group_size := 10, created_at := 77,
        updated_at := 88 } "g1" 3 =
    create_trip []
      { id := "y", destination := "Rome", country := "Italy",
        travel_agency := "SunTour", duration_days := 5, price := 90000,
        rating := (4.2 : Rat), group_size := 10, created_at := 11,
        updated_at := 22 } "g1" 3 :=
  C9_create_uniform [] _ _ "g1" 3 rfl rfl rfl rfl rfl rfl rfl

/-- Claim C10: when the merged dictionary fails re-validation, patch
returns the internal (neither NotFound nor request-validation) error and
the store, including the record's `updated_at`, is untouched, because
validation precedes the write-back. -/
theorem C10_patch_validation (db : List Trip) (tid : String)
    (m : List (String × Value)) (now : Nat) (i : Nat)
    (hf : find_trip_index db tid = some i)
    (hv : validateTrip (mergedDict (db.getD i default) m now) = none) :
    patch_trip db tid m now = (.error .internal, db) ∧
    (∀ x, Err.internal ≠ Err.notFound x) ∧
    Err.internal ≠ Err.unprocessable := by
  refine ⟨?_, ?_, ?_⟩
  · simp only [patch_trip, hf, hv]
  · intro x h
    cases h
  · intro h
    cases h

/-- Witness for C10: patching `price` with the string "abc" on a one-record
store fails validation and changes nothing. -/
theorem C10_witness :
    patch_trip [tripA] "a" [("price", Value.s "abc")] 2 =
      (.error .internal, [tripA]) :=
  (C10_patch_validation [tripA] "a" [("price", Value.s "abc")] 2 0
    (by decide) (by decide)).1

/-- Python's `min` on a non-empty list is an attained lower bound. -/
theorem listMin_spec (v : Rat) (vs : List Rat) :
    listMin (v :: vs) ∈ v :: vs ∧ ∀ x ∈ v :: vs, listMin (v :: vs) ≤ x := by
  constructor
  · rcases foldl_min_mem vs v with he | hm
    · rw [show listMin (v :: vs) = vs.foldl min v from rfl, he]
      exact List.mem_cons_self v vs
    · exact List.mem_cons_of_mem v hm
  · intro x hx
    rcases List.mem_cons.mp hx with rfl | hm
    · exact (foldl_min_le vs x).1
    · exact (foldl_min_le vs v).2 x hm

/-- Python's `max` on a non-empty list is an attained upper bound. -/
theorem listMax_spec (v : Rat) (vs : List Rat) :
    listMax (v :: vs) ∈ v :: vs ∧ ∀ x ∈ v :: vs, x ≤ listMax (v :: vs) := by
  constructor
  · rcases foldl_max_mem vs v with he | hm
    · rw [show listMax (v :: vs) = vs.foldl max v from rfl, he]
      exact List.mem_cons_self v vs
    · exact List.mem_cons_of_mem v hm
  · intro x hx
    rcases List.mem_cons.mp hx with rfl | hm
    · exact (le_foldl_max vs x).1
    · exact (le_foldl_max vs v).2 x hm

/-- Claim C5: statistics on a non-empty store reports min, max, sum, count
and `round(sum/count, 2)` per numeric field; on an empty store it returns
the distinct no-data result, performing no division. -/
theorem C5_statistics (db : List Trip) (now : Nat) :
    (db = [] → get_statistics db now = .noData) ∧
    (db ≠ [] →
      ∃ stats, get_statistics db now = .stats db.length stats now ∧
        ∀ f ∈ numeric_fields, ∃ fs : FieldStats, (f, fs) ∈ stats ∧
          fs.count = db.length ∧
          fs.sum = (db.map (numField f)).sum ∧
          fs.min ∈ db.map (numField f) ∧
          (∀ x ∈ db.map (numField f), fs.min ≤ x) ∧
          fs.max ∈ db.map (numField f) ∧
          (∀ x ∈ db.map (numField f), x ≤ fs.max) ∧
          fs.average = pyRound2 (fs.sum / (fs.count : Rat))) := by
  constructor
  · intro h
    subst h
    rfl
  · intro h
    have hne : db.isEmpty = false := by
      cases db with
      | nil => exact absurd rfl h
      | cons a l => rfl
    refine ⟨numeric_fields.map (fun f => (f, fieldStats db f)), ?_, ?_⟩
    · unfold get_statistics
      rw [hne]
      simp only [Bool.false_eq_true, if_false]
    · intro f hf
      obtain ⟨v, vs, hv⟩ : ∃ v vs, db.map (numField f) = v :: vs := by
        cases hm : db.map (numField f) with
        | nil =>
            cases db with
            | nil => exact absurd rfl h
            | cons a l => simp at hm
        | cons a l => exact ⟨a, l, rfl⟩
      refine ⟨fieldStats db f, List.mem_map.mpr ⟨f, hf, rfl⟩, ?_, rfl, ?_, ?_, ?_, ?_, rfl⟩
      · unfold fieldStats
        simp
      · show listMin (db.map (numField f)) ∈ db.map (numField f)
        rw [hv]
        exact (listMin_spec v vs).1
      · intro x hx
        show listMin (db.map (numField f)) ≤ x
        rw [hv]
        rw [hv] at hx
        exact (listMin_spec v vs).2 x hx
      · show listMax (db.map (numField f)) ∈ db.map (numField f)
        rw [hv]
        exact (listMax_spec v vs).1
      · intro x hx
        show x ≤ listMax (db.map (numField f))
        rw [hv]
        rw [hv] at hx
        exact (listMax_spec v vs).2 x hx

/-- Witness for C5: the empty store and a one-record store. -/
theorem C5_witness :
    get_statistics ([] : List Trip) 0 = StatsResult.noData ∧
    ∃ stats, get_statistics [tripA] 5 = StatsResult.stats 1 stats 5 := by
  refine ⟨(C5_statistics [] 0).1 rfl, ?_⟩
  obtain ⟨stats, h1, -⟩ := (C5_statistics [tripA] 5).2 (by decide)
  exact ⟨stats, h1⟩

/-- Claim C1: patch merges the mapping into the stored record — mutable
fields named in the mapping are overwritten, unknown keys are ignored, `id`
and `created_at` and unnamed fields are kept, `updated_at` is stamped with
the current time even for an empty mapping — stores and returns the merged
record, and signals NotFound for an unknown id. -/
theorem C1_patch_merge (db : List Trip) (tid : String)
    (m : List (String × Value)) (now : Nat) :
    (∀ i old, find_trip_index db tid = some i → db[i]? = some old →
      (m.map Prod.fst).Nodup → wellTyped m = true →
      patch_trip db tid m now =
        (.ok (mergedTrip old m now), db.set i (mergedTrip old m now)) ∧
      (mergedTrip old m now).id = old.id ∧
      (mergedTrip old m now).created_at = old.created_at ∧
      (mergedTrip old m now).updated_at = now) ∧
    (find_trip_index db tid = none →
      patch_trip db tid m now = (.error (.notFound tid), db)) := by
  constructor
  · intro i old hf hold hnd hwt
    have hgd : db[i]?.getD default = old := by rw [hold]; rfl
    have hval := validate_mergedDict old m now hnd hwt
    refine ⟨?_, rfl, rfl, rfl⟩
    simp only [patch_trip, hf]
    rw [List.getD_eq_getElem?_getD, hgd, hval]
  · intro hf
    simp only [patch_trip, hf]

/-- Witness for C1: the spec's own example, patching only `price`. -/
theorem C1_witness :
    patch_trip [tripA] "a" [("price", Value.q 99999)] 7 =
      (.ok (mergedTrip tripA [("price", Value.q 99999)] 7),
       [mergedTrip tripA [("price", Value.q 99999)] 7]) ∧
    (mergedTrip tripA [("price", Value.q 99999)] 7).price = 99999 ∧
    (mergedTrip tripA [("price", Value.q 99999)] 7).destination =
      tripA.destination := by
  have h := (C1_patch_merge [tripA] "a" [("price", Value.q 99999)] 7).1 0 tripA
    rfl rfl (by decide) (by decide)
  exact ⟨h.1, by decide, by decide⟩

/-- Stored ids after seeding are the generated ids. -/
theorem seeded_map_id (ids : List String) (now : Nat) :
    (initialize_database ids now).map Trip.id =
      (STATIC_TRIPS.zip ids).map Prod.snd := by
  unfold initialize_database
  rw [List.map_map]
  rfl

/-- Seeding with distinct fresh ids establishes the invariant. -/
theorem inv_init (ids : List String) (now : Nat) (hids : ids.Nodup) :
    StoreInv ⟨initialize_database ids now, ids, now⟩ := by
  refine ⟨?_, ?_, ?_, ?_⟩
  · show ((initialize_database ids now).map Trip.id).Nodup
    rw [seeded_map_id]
    exact List.Nodup.sublist (zip_map_snd_sublist _ _) hids
  · intro t ht
    obtain ⟨p, hp, hep⟩ := List.mem_map.mp ht
    obtain ⟨p1, p2⟩ := p
    subst hep
    exact (List.of_mem_zip hp).2
  · intro t ht
    obtain ⟨p, hp, hep⟩ := List.mem_map.mp ht
    subst hep
    exact Nat.le_refl _
  · intro t ht
    obtain ⟨p, hp, hep⟩ := List.mem_map.mp ht
    subst hep
    exact Nat.le_refl _

/-- Read-only transitions (and error paths) keep the invariant while the
clock advances and the generated-id set possibly grows. -/
theorem inv_advance {s : SState} (hinv : StoreInv s) {now : Nat}
    (h : s.clock ≤ now) (used' : List String)
    (hu : ∀ x ∈ s.used, x ∈ used') : StoreInv ⟨s.db, used', now⟩ :=
  ⟨hinv.nodup, fun t ht => hu _ (hinv.sub t ht), hinv.ts,
   fun t ht => le_trans (hinv.cl t ht) h⟩

/-- Replacing the record at a found index with one that keeps its id and
`created_at` and stamps `updated_at` with a current time preserves the
invariant. -/
theorem inv_set {s : SState} (hinv : StoreInv s) (i : Nat) (old u : Trip)
    (now : Nat) (hold : s.db[i]? = some old) (hid : u.id = old.id)
    (hca : u.created_at = old.created_at) (hua : u.updated_at = now)
    (hclock : s.clock ≤ now) : StoreInv ⟨s.db.set i u, s.used, now⟩ := by
  have hmem : old ∈ s.db := List.getElem?_mem hold
  refine ⟨?_, ?_, ?_, ?_⟩
  · show ((s.db.set i u).map Trip.id).Nodup
    rw [List.map_set, hid]
    have hmi : (s.db.map Trip.id)[i]? = some old.id := by
      rw [List.getElem?_map, hold]
      rfl
    rw [set_getElem?_self hmi]
    exact hinv.nodup
  · intro t ht
    rcases List.mem_or_eq_of_mem_set ht with hm | rfl
    · exact hinv.sub t hm
    · rw [hid]
      exact hinv.sub old hmem
  · intro t ht
    rcases List.mem_or_eq_of_mem_set ht with hm | rfl
    · exact hinv.ts t hm
    · rw [hca, hua]
      exact le_trans (le_trans (hinv.ts old hmem) (hinv.cl old hmem)) hclock
  · intro t ht
    rcases List.mem_or_eq_of_mem_set ht with hm | rfl
    · exact le_trans (hinv.cl t hm) hclock
    · rw [hua]

/-- Appending a freshly created record with a never-used id preserves the
invariant. -/
theorem inv_append {s : SState} (hinv : StoreInv s) (u : Trip) (gid : String)
    (now : Nat) (hfresh : gid ∉ s.used) (hid : u.id = gid)
    (hca : u.created_at = now) (hua : u.updated_at = now)
    (hclock : s.clock ≤ now) :
    StoreInv ⟨s.db ++ [u], gid :: s.used, now⟩ := by
  refine ⟨?_, ?_, ?_, ?_⟩
  · show ((s.db ++ [u]).map Trip.id).Nodup
    rw [List.map_append]
    rw [List.nodup_append]
    refine ⟨hinv.nodup, List.nodup_singleton _, ?_⟩
    intro a ha hb
    have hau : a = u.id := by simpa using hb
    rw [hau, hid] at ha
    obtain ⟨t, htm, hti⟩ := List.mem_map.mp ha
    exact hfresh (hti ▸ hinv.sub t htm)
  · intro t ht
    rcases List.mem_append.mp ht with hm | hm
    · exact List.mem_cons_of_mem _ (hinv.sub t hm)
    · rw [List.mem_singleton.mp hm, hid]
      exact List.mem_cons_self _ _
  · intro t ht
    rcases List.mem_append.mp ht with hm | hm
    · exact hinv.ts t hm
    · rw [List.mem_singleton.mp hm, hca, hua]
  · intro t ht
    rcases List.mem_append.mp ht with hm | hm
    · exact le_trans (hinv.cl t hm) hclock
    · rw [List.mem_singleton.mp hm, hua]

/-- A record that passes `patch_trip`'s re-validation keeps the old id and
`created_at` and carries the fresh `updated_at`. -/
theorem patch_ok_fields {db : List Trip} {i : Nat} {old u : Trip}
    {m : List (String × Value)} {now : Nat} (hold : db[i]? = some old)
    (hv : validateTrip (mergedDict (db.getD i default) m now) = some u) :
    u.id = old.id ∧ u.created_at = old.created_at ∧ u.updated_at = now := by
  have hgd : db.getD i default = old := by
    rw [List.getD_eq_getElem?_getD, hold]
    rfl
  rw [hgd] at hv
  obtain ⟨h1, h2, h3⟩ := validateTrip_spec hv
  rw [dget_mergedDict_id] at h1
  rw [dget_mergedDict_created_at] at h2
  rw [dget_mergedDict_updated_at] at h3
  simp only [Option.bind_eq_bind, Option.some_bind, coerceStr, coerceTime,
    Option.some.injEq] at h1 h2 h3
  exact ⟨h1.symm, h2.symm, h3.symm⟩

/-- Every transition of the service preserves the data-model invariants. -/
theorem inv_step {s s' : SState} (hinv : StoreInv s) (hstep : Step s s') :
    StoreInv s' := by
  cases hstep with
  | create body gid now hfresh hclock =>
      cases body with
      | none =>
          exact inv_advance hinv hclock _ (fun x hx => List.mem_cons_of_mem _ hx)
      | some bt =>
          exact inv_append hinv _ gid now hfresh rfl rfl rfl hclock
  | replace tid body now hclock =>
      cases hf : find_trip_index s.db tid with
      | none =>
          have h2 : (update_trip s.db tid body now).2 = s.db := by
            simp only [update_trip, hf]
          rw [h2]
          exact inv_advance hinv hclock _ (fun x hx => hx)
      | some i =>
          obtain ⟨old, hold, hpa⟩ := findIdx?_spec hf
          have hgd : s.db.getD i default = old := by
            rw [List.getD_eq_getElem?_getD, hold]
            rfl
          have h2 : (update_trip s.db tid body now).2 = s.db.set i { body with id := tid, created_at := old.created_at, updated_at := now } := by
            simp only [update_trip, hf, hgd]
          rw [h2]
          refine inv_set hinv i old _ now hold ?_ rfl rfl hclock
          show tid = old.id
          exact (by simpa using hpa : old.id = tid).symm
  | patch tid m now hclock =>
      cases hf : find_trip_index s.db tid with
      | none =>
          have h2 : (patch_trip s.db tid m now).2 = s.db := by
            simp only [patch_trip, hf]
          rw [h2]
          exact inv_advance hinv hclock _ (fun x hx => hx)
      | some i =>
          cases hv : validateTrip (mergedDict (s.db.getD i default) m now) with
          | none =>
              have h2 : (patch_trip s.db tid m now).2 = s.db := by
                simp only [patch_trip, hf, hv]
              rw [h2]
              exact inv_advance hinv hclock _ (fun x hx => hx)
          | some u =>
              obtain ⟨old, hold, hpa⟩ := findIdx?_spec hf
              have h2 : (patch_trip s.db tid m now).2 = s.db.set i u := by
                simp only [patch_trip, hf, hv]
              obtain ⟨hid, hca, hua⟩ := patch_ok_fields hold hv
              rw [h2]
              exact inv_set hinv i old u now hold hid hca hua hclock
  | delete tid now hclock =>
      cases hf : find_trip_index s.db tid with
      | none =>
          have h2 : (delete_trip s.db tid).2 = s.db := by
            simp only [delete_trip, hf]
          rw [h2]
          exact inv_advance hinv hclock _ (fun x hx => hx)
      | some i =>
          have h2 : (delete_trip s.db tid).2 = s.db.eraseIdx i := by
            simp only [delete_trip, hf]
          rw [h2]
          have hsub := List.eraseIdx_sublist s.db i
          refine ⟨?_, ?_, ?_, ?_⟩
          · exact List.Nodup.sublist (hsub.map Trip.id) hinv.nodup
          · intro t ht
            exact hinv.sub t (hsub.subset ht)
          · intro t ht
            exact hinv.ts t (hsub.subset ht)
          · intro t ht
            exact le_trans (hinv.cl t (hsub.subset ht)) hclock
  | query now hclock =>
      exact inv_advance hinv hclock _ (fun x hx => hx)

/-- Every reachable state satisfies the invariants. -/
theorem reachable_inv {s : SState} (h : Reachable s) : StoreInv s := by
  induction h with
  | init ids now hids => exact inv_init ids now hids
  | step s s' hr hstep ih => exact inv_step ih hstep

/-- Across any single transition: the set of generated ids only grows, a
surviving record (same id) keeps its `created_at`, and a record whose id
was not previously stored carries an id never generated before (in
particular, never a deleted one). -/
theorem step_preserves (s s' : SState) (hinv : StoreInv s) (hstep : Step s s') :
    (∀ x ∈ s.used, x ∈ s'.used) ∧
    (∀ t' ∈ s'.db, ∀ t ∈ s.db, t'.id = t.id → t'.created_at = t.created_at) ∧
    (∀ t' ∈ s'.db, t'.id ∉ s.db.map Trip.id → t'.id ∉ s.used) := by
  have hinj := List.inj_on_of_nodup_map hinv.nodup
  cases hstep with
  | create body gid now hfresh hclock =>
      cases body with
      | none =>
          refine ⟨fun x hx => List.mem_cons_of_mem _ hx, ?_, ?_⟩
          · intro t' ht' t ht he
            exact congrArg Trip.created_at (hinj ht' ht he)
          · intro t' ht' hnot
            exact absurd (List.mem_map_of_mem Trip.id ht') hnot
      | some bt =>
          refine ⟨fun x hx => List.mem_cons_of_mem _ hx, ?_, ?_⟩
          · intro t' ht' t ht he
            rcases List.mem_append.mp ht' with hm | hm
            · exact congrArg Trip.created_at (hinj hm ht he)
            · have hgid : t'.id = gid := by rw [List.mem_singleton.mp hm]
              exfalso
              apply hfresh
              rw [← hgid, he]
              exact hinv.sub t ht
          · intro t' ht' hnot
            rcases List.mem_append.mp ht' with hm | hm
            · exact absurd (List.mem_map_of_mem Trip.id hm) hnot
            · have hgid : t'.id = gid := by rw [List.mem_singleton.mp hm]
              rw [hgid]
              exact hfresh
  | replace tid body now hclock =>
      cases hf : find_trip_index s.db tid with
      | none =>
          have h2 : (update_trip s.db tid body now).2 = s.db := by
            simp only [update_trip, hf]
          rw [h2]
          refine ⟨fun x hx => hx, ?_, ?_⟩
          · intro t' ht' t ht he
            exact congrArg Trip.created_at (hinj ht' ht he)
          · intro t' ht' hnot
            exact absurd (List.mem_map_of_mem Trip.id ht') hnot
      | some i =>
          obtain ⟨old, hold, hpa⟩ := findIdx?_spec hf
          have hiold : old.id = tid := by simpa using hpa
          have hgd : s.db.getD i default = old := by
            rw [List.getD_eq_getElem?_getD, hold]
            rfl
          have h2 : (update_trip s.db tid body now).2 = s.db.set i { body with id := tid, created_at := old.created_at, updated_at := now } := by
            simp only [update_trip, hf, hgd]
          rw [h2]
          refine ⟨fun x hx => hx, ?_, ?_⟩
          · intro t' ht' t ht he
            rcases List.mem_or_eq_of_mem_set ht' with hm | rfl
            · exact congrArg Trip.created_at (hinj hm ht he)
            · have h3 : tid = t.id := he
              have h4 : old = t :=
                hinj (List.getElem?_mem hold) ht (hiold.trans h3)
              show old.created_at = t.created_at
              rw [h4]
          · intro t' ht' hnot
            rcases List.mem_or_eq_of_mem_set ht' with hm | rfl
            · exact absurd (List.mem_map_of_mem Trip.id hm) hnot
            · exfalso
              apply hnot
              show tid ∈ s.db.map Trip.id
              rw [← hiold]
              exact List.mem_map_of_mem Trip.id (List.getElem?_mem hold)
  | patch tid m now hclock =>
      cases hf : find_trip_index s.db tid with
      | none =>
          have h2 : (patch_trip s.db tid m now).2 = s.db := by
            simp only [patch_trip, hf]
          rw [h2]
          refine ⟨fun x hx => hx, ?_, ?_⟩
          · intro t' ht' t ht he
            exact congrArg Trip.created_at (hinj ht' ht he)
          · intro t' ht' hnot
            exact absurd (List.mem_map_of_mem Trip.id ht') hnot
      | some i =>
          cases hv : validateTrip (mergedDict (s.db.getD i default) m now) with
          | none =>
              have h2 : (patch_trip s.db tid m now).2 = s.db := by
                simp only [patch_trip, hf, hv]
              rw [h2]
              refine ⟨fun x hx => hx, ?_, ?_⟩
              · intro t' ht' t ht he
                exact congrArg Trip.created_at (hinj ht' ht he)
              · intro t' ht' hnot
                exact absurd (List.mem_map_of_mem Trip.id ht') hnot
          | some u =>
              obtain ⟨old, hold, hpa⟩ := findIdx?_spec hf
              obtain ⟨hid, hca, hua⟩ := patch_ok_fields hold hv
              have h2 : (patch_trip s.db tid m now).2 = s.db.set i u := by
                simp only [patch_trip, hf, hv]
              rw [h2]
              refine ⟨fun x hx => hx, ?_, ?_⟩
              · intro t' ht' t ht he
                rcases List.mem_or_eq_of_mem_set ht' with hm | rfl
                · exact congrArg Trip.created_at (hinj hm ht he)
                · have h4 : old = t :=
                    hinj (List.getElem?_mem hold) ht (hid.symm.trans he)
                  rw [hca, h4]
              · intro t' ht' hnot
                rcases List.mem_or_eq_of_mem_set ht' with hm | rfl
                · exact absurd (List.mem_map_of_mem Trip.id hm) hnot
                · exfalso
                  apply hnot
                  rw [hid]
                  exact List.mem_map_of_mem Trip.id (List.getElem?_mem hold)
  | delete tid now hclock =>
      cases hf : find_trip_index s.db tid with
      | none =>
          have h2 : (delete_trip s.db tid).2 = s.db := by
            simp only [delete_trip, hf]
          rw [h2]
          refine ⟨fun x hx => hx, ?_, ?_⟩
          · intro t' ht' t ht he
            exact congrArg Trip.created_at (hinj ht' ht he)
          · intro t' ht' hnot
            exact absurd (List.mem_map_of_mem Trip.id ht') hnot
      | some i =>
          have h2 : (delete_trip s.db tid).2 = s.db.eraseIdx i := by
            simp only [delete_trip, hf]
          rw [h2]
          have hsub := List.eraseIdx_sublist s.db i
          refine ⟨fun x hx => hx, ?_, ?_⟩
          · intro t' ht' t ht he
            exact congrArg Trip.created_at (hinj (hsub.subset ht') ht he)
          · intro t' ht' hnot
            exact absurd (List.mem_map_of_mem Trip.id (hsub.subset ht')) hnot
  | query now hclock =>
      refine ⟨fun x hx => hx, ?_, ?_⟩
      · intro t' ht' t ht he
        exact congrArg Trip.created_at (hinj ht' ht he)
      · intro t' ht' hnot
        exact absurd (List.mem_map_of_mem Trip.id ht') hnot

/-- Claim C6: every Trip Store operation preserves the data-model
invariants in every reachable state — ids pairwise distinct and never
reused after deletion, `created_at` immutable after creation, `updated_at`
between a record's `created_at` and the current clock. -/
theorem C6_invariants :
    (∀ s, Reachable s → StoreInv s) ∧
    (∀ s s', Reachable s → Step s s' →
      (∀ x ∈ s.used, x ∈ s'.used) ∧
      (∀ t' ∈ s'.db, ∀ t ∈ s.db, t'.id = t.id → t'.created_at = t.created_at) ∧
      (∀ t' ∈ s'.db, t'.id ∉ s.db.map Trip.id → t'.id ∉ s.used)) :=
  ⟨fun _ h => reachable_inv h,
   fun s s' hr hstep => step_preserves s s' (reachable_inv hr) hstep⟩

/-- Witness for C6: the invariants hold in the concrete seeded state, and a
concrete clock-advancing request preserves every record's `created_at`. -/
theorem C6_witness :
    StoreInv seededState ∧
    (∀ t' ∈ seededState.db, ∀ t ∈ seededState.db,
      t'.id = t.id → t'.created_at = t.created_at) := by
  have hreach : Reachable seededState :=
    Reachable.init ["a", "b", "c", "d", "e"] 0 (by decide)
  refine ⟨C6_invariants.1 seededState hreach, ?_⟩
  have hstep : Step seededState ⟨seededState.db, seededState.used, 1⟩ :=
    Step.query seededState 1 (by decide)
  exact (C6_invariants.2 seededState _ hreach hstep).2.1
